import Mathlib

/-!
Verification development for the boswell-mcp repository.

The embedding covers the two core source files the claims are about:

* `src/encryption_service.py` — envelope encryption: AES-256-GCM payload
  encryption and decryption, DEK unwrapping with a TTL cache, and
  passphrase-protected export / import of wrapped DEKs.
* `src/app.py` — the content-addressable store: `compute_hash`,
  `create_commit` (the `/v2/commit` handler) and `get_log` (the `/v2/log`
  handler).

Modelling conventions:

* Byte strings (`bytes`) are `List Nat` with each element a byte value.
* The AES-GCM primitive of the `cryptography` library is modelled by its
  interface behaviour: `encrypt` produces `CTR-keystream XOR plaintext`
  followed by a 16-byte authentication tag, `decrypt` recomputes the tag
  over the ciphertext body and fails when it does not match.  The AES
  block function and GHASH internals are abstracted into two function
  fields (`keystream`, `tagOf`) of the `AESGCM` structure; all theorems
  quantify over them.
* `hashlib.sha256(...).hexdigest()` is abstracted into the single function
  field of `HashFn`; the claims about `app.py` are structural facts about
  which string is hashed, not about SHA-256 internals.
* UTF-8 encoding and decoding (`str.encode('utf-8')` / `bytes.decode`)
  are implemented executably and proved to round-trip.
* Randomness (`secrets.token_bytes`) and wall-clock time (`time.time()`)
  are passed in as explicit arguments.
* Database state is an explicit `Store` record; a commit request's reads
  of the branch head and its write set are threaded explicitly so that
  both the sequential behaviour and interleavings of two concurrent
  commit requests can be stated.
-/

namespace Boswell

/-- Errors raised by the encryption layer: `authenticationFailure` models
`cryptography.exceptions.InvalidTag` raised by `AESGCM.decrypt`;
`decodeFailure` models `UnicodeDecodeError` from `bytes.decode('utf-8')`. -/
inductive CryptoError where
  | authenticationFailure
  | decodeFailure
deriving DecidableEq

/-- Model of the AES-256-GCM primitive used via
`cryptography.hazmat.primitives.ciphers.aead.AESGCM`.  GCM encrypts by
XOR-ing the plaintext with a keystream derived from `(key, nonce)` and
appends a 16-byte tag computed from `(key, nonce, ciphertext body)`;
decryption recomputes and checks the tag, then XORs the same keystream.
The AES block cipher and GHASH are abstracted into the two fields. -/
structure AESGCM where
  keystream : List Nat → List Nat → Nat → Nat
  tagOf : List Nat → List Nat → List Nat → List Nat
  tag_len : ∀ dek nonce body, (tagOf dek nonce body).length = 16

/-- XOR a byte list with the GCM keystream starting at stream index `i`. -/
def xorStream (g : AESGCM) (dek nonce : List Nat) : Nat → List Nat → List Nat
  | _, [] => []
  | i, b :: bs => (b ^^^ g.keystream dek nonce i) :: xorStream g dek nonce (i + 1) bs

/-- Library-level `AESGCM(key).encrypt(nonce, data, None)`: ciphertext body
followed by the 16-byte authentication tag. -/
def aesgcmEncrypt (g : AESGCM) (dek nonce data : List Nat) : List Nat :=
  let body := xorStream g dek nonce 0 data
  body ++ g.tagOf dek nonce body

/-- Library-level `AESGCM(key).decrypt(nonce, ct, None)`: split off the
trailing 16-byte tag, verify it, and XOR the keystream back.  Any tag
mismatch (including an input too short to hold a tag) raises
`InvalidTag`, modelled as `CryptoError.authenticationFailure`. -/
def aesgcmDecrypt (g : AESGCM) (dek nonce ct : List Nat) :
    Except CryptoError (List Nat) :=
  if ct.length < 16 then .error .authenticationFailure
  else
    let body := ct.take (ct.length - 16)
    let tag := ct.drop (ct.length - 16)
    if tag = g.tagOf dek nonce body then .ok (xorStream g dek nonce 0 body)
    else .error .authenticationFailure

theorem xorStream_length (g : AESGCM) (dek nonce : List Nat) :
    ∀ (i : Nat) (l : List Nat), (xorStream g dek nonce i l).length = l.length := by
  intro i l
  induction l generalizing i with
  | nil => rfl
  | cons b bs ih => simp [xorStream, ih]

theorem xorStream_xorStream (g : AESGCM) (dek nonce : List Nat) :
    ∀ (i : Nat) (l : List Nat), xorStream g dek nonce i (xorStream g dek nonce i l) = l := by
  intro i l
  induction l generalizing i with
  | nil => rfl
  | cons b bs ih =>
      simp only [xorStream, ih]
      rw [Nat.xor_assoc, Nat.xor_self, Nat.xor_zero]

theorem aesgcmDecrypt_aesgcmEncrypt (g : AESGCM) (dek nonce data : List Nat) :
    aesgcmDecrypt g dek nonce (aesgcmEncrypt g dek nonce data) = .ok data := by
  have hlen : (xorStream g dek nonce 0 data).length = data.length :=
    xorStream_length g dek nonce 0 data
  have htag : (g.tagOf dek nonce (xorStream g dek nonce 0 data)).length = 16 :=
    g.tag_len dek nonce (xorStream g dek nonce 0 data)
  unfold aesgcmEncrypt aesgcmDecrypt
  simp only [List.length_append, hlen, htag]
  have hnot : ¬ data.length + 16 < 16 := by omega
  rw [if_neg hnot]
  have hsub : data.length + 16 - 16 = (xorStream g dek nonce 0 data).length := by omega
  rw [hsub, List.take_left, List.drop_left, if_pos rfl,
    xorStream_xorStream g dek nonce 0 data]

/-- UTF-8 encoding of one character, the byte sequence produced by
Python's `str.encode('utf-8')` for a single code point. -/
def utf8Bytes (c : Char) : List Nat :=
  let n := c.toNat
  if n < 128 then [n]
  else if n < 2048 then [192 + n / 64, 128 + n % 64]
  else if n < 65536 then [224 + n / 4096, 128 + n / 64 % 64, 128 + n % 64]
  else [240 + n / 262144, 128 + n / 4096 % 64, 128 + n / 64 % 64, 128 + n % 64]

/-- UTF-8 encoding of a whole string (`content_str.encode('utf-8')`). -/
def strBytes (s : String) : List Nat := (s.data.map utf8Bytes).flatten

/-- UTF-8 decoding of a byte list back into characters
(`bytes.decode('utf-8')`); `none` models `UnicodeDecodeError`.  The lead
byte determines how many continuation bytes are consumed. -/
def utf8DecodeList : List Nat → Option (List Char)
  | [] => some []
  | b :: bs =>
    if b < 128 then
      (utf8DecodeList bs).map fun cs => Char.ofNat b :: cs
    else if b < 192 then none
    else if b < 224 then
      if bs.length < 1 then none
      else (utf8DecodeList (bs.drop 1)).map fun cs =>
        Char.ofNat ((b - 192) * 64 + (bs.getD 0 0 - 128)) :: cs
    else if b < 240 then
      if bs.length < 2 then none
      else (utf8DecodeList (bs.drop 2)).map fun cs =>
        Char.ofNat ((b - 224) * 4096 + (bs.getD 0 0 - 128) * 64 +
          (bs.getD 1 0 - 128)) :: cs
    else
      if bs.length < 3 then none
      else (utf8DecodeList (bs.drop 3)).map fun cs =>
        Char.ofNat ((b - 240) * 262144 + (bs.getD 0 0 - 128) * 4096 +
          (bs.getD 1 0 - 128) * 64 + (bs.getD 2 0 - 128)) :: cs
termination_by l => l.length
decreasing_by all_goals simp [List.length_drop] <;> omega

theorem utf8DecodeList_nil : utf8DecodeList [] = some [] := by
  rw [utf8DecodeList.eq_def]

theorem utf8DecodeList_cons1 (b : Nat) (bs : List Nat) (h : b < 128) :
    utf8DecodeList (b :: bs) =
      (utf8DecodeList bs).map fun cs => Char.ofNat b :: cs := by
  rw [utf8DecodeList.eq_def]
  simp only []
  rw [if_pos h]

theorem utf8DecodeList_cons2 (b b2 : Nat) (bs : List Nat)
    (h1 : ¬ b < 128) (h2 : ¬ b < 192) (h3 : b < 224) :
    utf8DecodeList (b :: b2 :: bs) =
      (utf8DecodeList bs).map fun cs =>
        Char.ofNat ((b - 192) * 64 + (b2 - 128)) :: cs := by
  rw [utf8DecodeList.eq_def]
  simp only []
  rw [if_neg h1, if_neg h2, if_pos h3,
    if_neg (by simp only [List.length_cons]; omega)]
  simp

theorem utf8DecodeList_cons3 (b b2 b3 : Nat) (bs : List Nat)
    (h1 : ¬ b < 128) (h2 : ¬ b < 192) (h3 : ¬ b < 224) (h4 : b < 240) :
    utf8DecodeList (b :: b2 :: b3 :: bs) =
      (utf8DecodeList bs).map fun cs =>
        Char.ofNat ((b - 224) * 4096 + (b2 - 128) * 64 + (b3 - 128)) :: cs := by
  rw [utf8DecodeList.eq_def]
  simp only []
  rw [if_neg h1, if_neg h2, if_neg h3, if_pos h4,
    if_neg (by simp only [List.length_cons]; omega)]
  simp

theorem utf8DecodeList_cons4 (b b2 b3 b4 : Nat) (bs : List Nat)
    (h1 : ¬ b < 128) (h2 : ¬ b < 192) (h3 : ¬ b < 224) (h4 : ¬ b < 240) :
    utf8DecodeList (b :: b2 :: b3 :: b4 :: bs) =
      (utf8DecodeList bs).map fun cs =>
        Char.ofNat ((b - 240) * 262144 + (b2 - 128) * 4096 +
          (b3 - 128) * 64 + (b4 - 128)) :: cs := by
  rw [utf8DecodeList.eq_def]
  simp only []
  rw [if_neg h1, if_neg h2, if_neg h3, if_neg h4,
    if_neg (by simp only [List.length_cons]; omega)]
  simp

theorem utf8DecodeList_utf8Bytes_append (c : Char) (rest : List Nat) :
    utf8DecodeList (utf8Bytes c ++ rest) =
      (utf8DecodeList rest).map fun cs => c :: cs := by
  have hv := c.valid
  have he : c.toNat = c.val.toNat := rfl
  have hub : c.toNat < 1114112 := by rcases hv with h | ⟨h1, h2⟩ <;> omega
  by_cases h1 : c.toNat < 128
  · have hb : utf8Bytes c = [c.toNat] := by
      simp only [utf8Bytes, if_pos h1]
    rw [hb, List.cons_append, List.nil_append, utf8DecodeList_cons1 _ _ h1]
    simp only [Char.ofNat_toNat]
  · by_cases h2 : c.toNat < 2048
    · have hb : utf8Bytes c = [192 + c.toNat / 64, 128 + c.toNat % 64] := by
        simp only [utf8Bytes, if_neg h1, if_pos h2]
      have gv : (192 + c.toNat / 64 - 192) * 64 + (128 + c.toNat % 64 - 128)
          = c.toNat := by omega
      rw [hb, List.cons_append, List.cons_append, List.nil_append,
        utf8DecodeList_cons2 _ _ _ (by omega) (by omega) (by omega)]
      simp only [gv, Char.ofNat_toNat]
    · by_cases h3 : c.toNat < 65536
      · have hb : utf8Bytes c =
            [224 + c.toNat / 4096, 128 + c.toNat / 64 % 64, 128 + c.toNat % 64] := by
          simp only [utf8Bytes, if_neg h1, if_neg h2, if_pos h3]
        have gv : (224 + c.toNat / 4096 - 224) * 4096 +
            (128 + c.toNat / 64 % 64 - 128) * 64 + (128 + c.toNat % 64 - 128)
            = c.toNat := by omega
        rw [hb, List.cons_append, List.cons_append, List.cons_append,
          List.nil_append,
          utf8DecodeList_cons3 _ _ _ _ (by omega) (by omega) (by omega) (by omega)]
        simp only [gv, Char.ofNat_toNat]
      · have hb : utf8Bytes c =
            [240 + c.toNat / 262144, 128 + c.toNat / 4096 % 64,
              128 + c.toNat / 64 % 64, 128 + c.toNat % 64] := by
          simp only [utf8Bytes, if_neg h1, if_neg h2, if_neg h3]
        have gv : (240 + c.toNat / 262144 - 240) * 262144 +
            (128 + c.toNat / 4096 % 64 - 128) * 4096 +
            (128 + c.toNat / 64 % 64 - 128) * 64 + (128 + c.toNat % 64 - 128)
            = c.toNat := by omega
        rw [hb, List.cons_append, List.cons_append, List.cons_append,
          List.cons_append, List.nil_append,
          utf8DecodeList_cons4 _ _ _ _ _ (by omega) (by omega) (by omega) (by omega)]
        simp only [gv, Char.ofNat_toNat]

theorem utf8DecodeList_flatten (cs : List Char) :
    utf8DecodeList ((cs.map utf8Bytes).flatten) = some cs := by
  induction cs with
  | nil => simpa using utf8DecodeList_nil
  | cons c rest ih =>
      simp only [List.map_cons, List.flatten_cons]
      rw [utf8DecodeList_utf8Bytes_append c, ih]
      rfl

theorem utf8DecodeList_strBytes (s : String) :
    utf8DecodeList (strBytes s) = some s.data :=
  utf8DecodeList_flatten s.data

/-- Association-list lookup modelling a keyed SQL row lookup or a Python
dict read; returns the first binding of the key. -/
def lookupA {α : Type} (k : String) : List (String × α) → Option α
  | [] => none
  | (k2, v) :: rest => if k2 = k then some v else lookupA k rest

/-- Python dict assignment `d[k] = v`: replace the first binding of `k`,
or append a new binding when the key is absent. -/
def setAssoc {α : Type} (k : String) (v : α) : List (String × α) → List (String × α)
  | [] => [(k, v)]
  | (k2, v2) :: rest =>
      if k2 = k then (k, v) :: rest else (k2, v2) :: setAssoc k v rest

theorem lookupA_setAssoc {α : Type} (k : String) (v : α) :
    ∀ l : List (String × α), lookupA k (setAssoc k v l) = some v := by
  intro l
  induction l with
  | nil => simp [setAssoc, lookupA]
  | cons p rest ih =>
      by_cases h : p.1 = k
      · simp [setAssoc, lookupA, h]
      · simp [setAssoc, lookupA, h, ih]

namespace EncryptionService

/-- Cache TTL from `encryption_service.py`: `DEK_CACHE_TTL = 300`. -/
def DEK_CACHE_TTL : Nat := 300

/-- Process-wide encryption-service state: the module-level
`_dek_cache : key_id -> (plaintext_dek, timestamp)` plus a counter of
calls made to the Key Management Client's decrypt endpoint (so that
"must not invoke KMS a second time" is observable in the model). -/
structure EncState where
  cache : List (String × (List Nat × Nat))
  kmsCalls : Nat
deriving DecidableEq

/-- Model of `EncryptionService.unwrap_dek`: return the cached plaintext
DEK when present and younger than `DEK_CACHE_TTL`; otherwise call the KMS
client (`kms` abstracts `kms_client.decrypt`), refresh the cache with the
current time `t`, and return the result.  `time.time()` is the explicit
argument `t` (in seconds). -/
def unwrap_dek (kms : List Nat → List Nat) (es : EncState) (t : Nat)
    (keyId : String) (wrappedDek : List Nat) : List Nat × EncState :=
  match lookupA keyId es.cache with
  | some (plaintextDek, cachedAt) =>
      if t - cachedAt < DEK_CACHE_TTL then (plaintextDek, es)
      else
        let d := kms wrappedDek
        (d, ⟨setAssoc keyId (d, t) es.cache, es.kmsCalls + 1⟩)
  | none =>
      let d := kms wrappedDek
      (d, ⟨setAssoc keyId (d, t) es.cache, es.kmsCalls + 1⟩)

/-- Model of `EncryptionService.encrypt`: AES-256-GCM with a fresh random
96-bit nonce (`secrets.token_bytes(12)`, passed in as `nonceR`); the
plaintext string is UTF-8 encoded before encryption.  Returns
`(ciphertext, nonce)`. -/
def encrypt (g : AESGCM) (plaintext : String) (dek : List Nat)
    (nonceR : List Nat) : List Nat × List Nat :=
  let nonce := nonceR
  let ciphertext := aesgcmEncrypt g dek nonce (strBytes plaintext)
  (ciphertext, nonce)

/-- Model of `EncryptionService.decrypt`: AES-256-GCM decryption followed
by `bytes.decode('utf-8')`. -/
def decrypt (g : AESGCM) (ciphertext nonce dek : List Nat) :
    Except CryptoError String :=
  match aesgcmDecrypt g dek nonce ciphertext with
  | .error e => .error e
  | .ok bytes =>
      match utf8DecodeList bytes with
      | some cs => .ok (String.mk cs)
      | none => .error .decodeFailure

end EncryptionService

/-- Model of `PBKDF2HMAC(SHA256, length=32, salt, iterations=600000)`
followed by `kdf.derive(passphrase.encode())`: the derived key as an
abstract function of the passphrase bytes and the salt. -/
structure KDF where
  derive : List Nat → List Nat → List Nat

/-- Model of `export_dek_backup`: derive a key from the passphrase with a
fresh random 16-byte salt, encrypt the wrapped DEK under that key with a
fresh random 12-byte nonce, and return `salt ++ nonce ++ ciphertext`.
The random `secrets.token_bytes` outputs are the explicit arguments
`salt` and `nonce`. -/
def export_dek_backup (g : AESGCM) (k : KDF) (wrappedDek passBytes salt nonce : List Nat) :
    List Nat :=
  let passphraseKey := k.derive passBytes salt
  let encrypted := aesgcmEncrypt g passphraseKey nonce wrappedDek
  salt ++ nonce ++ encrypted

/-- Model of `import_dek_backup`: split the backup into
`salt = backup[:16]`, `nonce = backup[16:28]`, `encrypted = backup[28:]`,
derive the key from the passphrase and the extracted salt, and decrypt;
a failing GCM tag check raises `AuthenticationFailure`. -/
def import_dek_backup (g : AESGCM) (k : KDF) (backupData passBytes : List Nat) :
    Except CryptoError (List Nat) :=
  let salt := backupData.take 16
  let nonce := (backupData.drop 16).take 12
  let encrypted := backupData.drop 28
  let passphraseKey := k.derive passBytes salt
  aesgcmDecrypt g passphraseKey nonce encrypted

/-- Abstraction of `hashlib.sha256(content.encode('utf-8')).hexdigest()`
as used by `compute_hash` in `app.py`.  The claims about the store are
structural facts about which string is hashed; the SHA-256 compression
function itself is external library code. -/
structure HashFn where
  sha : String → String

/-- Model of `compute_hash` in `app.py`. -/
def compute_hash (H : HashFn) (content : String) : String :=
  H.sha content

/-- A row of the `blobs` table as written by `create_commit`. -/
structure Blob where
  content : String
  contentEncrypted : Option (List Nat)
  nonce : Option (List Nat)
  encryptionKeyId : Option String
  contentType : String
  createdAt : String
  byteSize : Nat
deriving DecidableEq

/-- A row of the `commits` table. -/
structure CommitRow where
  commitHash : String
  treeHash : String
  parentHash : Option String
  author : String
  message : String
  createdAt : String
deriving DecidableEq

/-- A row of the `tree_entries` table. -/
structure TreeEntry where
  treeHash : String
  name : String
  blobHash : String
  mode : String
deriving DecidableEq

/-- The tenant-scoped relational state touched by the commit/log
endpoints: `branches` maps a branch name to its `head_commit`, `blobs`
maps a `blob_hash` to its row, and `commits`, `tree_entries` and `tags`
are insertion-ordered row lists. -/
structure Store where
  branches : List (String × String)
  commits : List CommitRow
  blobs : List (String × Blob)
  treeEntries : List TreeEntry
  tags : List (String × String)
deriving DecidableEq

/-- Encryption configuration visible to `create_commit`:
`encryptionEnabled` is the `ENCRYPTION_ENABLED` environment flag,
`serviceAvailable` is whether `get_encryption_service` produced a service
(its initializer swallows failures and returns `None`), and `activeDek`
is the `data_encryption_keys` row with `status = 'active'` for the tenant
(`(key_id, wrapped_key)`), as read by `get_active_dek`. -/
structure EncConfig where
  encryptionEnabled : Bool
  serviceAvailable : Bool
  activeDek : Option (String × List Nat)
deriving DecidableEq

/-- Request content: a JSON object (`dict`) or any other payload via its
string rendering (`str(content)`).  `δ` is the type of parsed JSON
objects; its serialization is abstracted by `JsonEnv`. -/
inductive ReqContent (δ : Type) where
  | dict (d : δ)
  | other (s : String)

/-- Abstraction of the `json` module operations `create_commit` relies
on: `dumps` is `json.dumps` and `isEmptyDict` is Python truthiness of a
dict (`not content` for a dict is true exactly when it is empty). -/
structure JsonEnv (δ : Type) where
  dumps : δ → String
  isEmptyDict : δ → Bool

/-- Line 286 of `app.py`:
`content_str = json.dumps(content) if isinstance(content, dict) else str(content)`. -/
def canonicalContent {δ : Type} (j : JsonEnv δ) : ReqContent δ → String
  | .dict d => j.dumps d
  | .other s => s

/-- Python truthiness test `if not content` on the request content: an
empty dict and an empty string are falsy. -/
def contentFalsy {δ : Type} (j : JsonEnv δ) : ReqContent δ → Bool
  | .dict d => j.isEmptyDict d
  | .other s => s.isEmpty

/-- Python rendering of the commit parent inside the f-string
`f"{tree_hash}:{parent_hash}:{message}:{now}"`: `None` renders as the
four characters `None`. -/
def pyOptStr : Option String → String
  | none => "None"
  | some s => s

/-- The JSON body returned by the `/v2/commit` handler on success. -/
structure CommitResp where
  commitHash : String
  blobHash : String
  treeHash : String
  branch : String
  message : String
deriving DecidableEq

/-- The 400 error of the commit handler (`'Content required'`). -/
inductive ApiError where
  | contentRequired
deriving DecidableEq

/-- SQL `UPDATE branches SET head_commit = newHead WHERE name = name`:
rewrites every row whose key matches; rows of other branches are
untouched, and a missing branch row leaves the table unchanged. -/
def updateHead : List (String × String) → String → String → List (String × String)
  | [], _, _ => []
  | (k2, v2) :: rest, name, newHead =>
      if k2 = name then (k2, newHead) :: updateHead rest name newHead
      else (k2, v2) :: updateHead rest name newHead

/-- Insert-or-ignore on the `blobs` table
(`ON CONFLICT (blob_hash) DO NOTHING`). -/
def insertBlob (blobs : List (String × Blob)) (blobHash : String) (row : Blob) :
    List (String × Blob) :=
  if (lookupA blobHash blobs).isSome then blobs else blobs ++ [(blobHash, row)]

/-- Insert-or-ignore on the `tags` table
(`ON CONFLICT (tenant_id, blob_hash, tag) DO NOTHING`). -/
def insertTag (tags : List (String × String)) (blobHash tag : String) :
    List (String × String) :=
  if (blobHash, tag) ∈ tags then tags else tags ++ [(blobHash, tag)]

/-- Model of the `create_commit` handler (`/v2/commit` in `app.py`),
with the database reads and writes threaded explicitly.

`readSt` is the state seen by the handler's `SELECT head_commit` on the
branch, and `writeSt` is the committed state its write set lands on: a
single, isolated request has `readSt = writeSt` (see `create_commit`),
while two concurrent requests on one branch can each read the head from
the state preceding both writes, because the handler takes no row lock
between its head read and its head update.  Inserts that carry an
`ON CONFLICT` clause (blobs, tags) check the state being written to.

The remaining arguments: `j` the JSON abstraction, `H` the SHA-256
abstraction, `g` the AES-GCM primitive, `cfg` the encryption
configuration, `kms` the KMS unwrap call, `es` the DEK-cache state, `t`
the current `time.time()`, `now` the `datetime.utcnow().isoformat()+'Z'`
timestamp string, and `nonceR` the random nonce drawn inside
`EncryptionService.encrypt`. -/
def create_commit_rw {δ : Type} (j : JsonEnv δ) (H : HashFn) (g : AESGCM)
    (cfg : EncConfig) (kms : List Nat → List Nat) (es : EncryptionService.EncState)
    (t : Nat) (now : String) (nonceR : List Nat) (readSt writeSt : Store)
    (branch : String) (content : Option (ReqContent δ))
    (message author memType : String) (tags : List String) :
    Except ApiError (Store × EncryptionService.EncState × CommitResp) :=
  match content with
  | none => .error .contentRequired
  | some c =>
    if contentFalsy j c then .error .contentRequired
    else
      let content_str := canonicalContent j c
      let blob_hash := compute_hash H content_str
      let hasService := cfg.encryptionEnabled && cfg.serviceAvailable
      let dek_info : Option (String × List Nat) :=
        if cfg.encryptionEnabled then cfg.activeDek else none
      let blobInserted :=
        match dek_info with
        | some (key_id, wrapped_dek) =>
          if cfg.encryptionEnabled && hasService then
            let unwrapped := EncryptionService.unwrap_dek kms es t key_id wrapped_dek
            let encRes := EncryptionService.encrypt g content_str unwrapped.1 nonceR
            (insertBlob writeSt.blobs blob_hash
              { content := content_str, contentEncrypted := some encRes.1,
                nonce := some encRes.2, encryptionKeyId := some key_id,
                contentType := memType, createdAt := now,
                byteSize := content_str.length }, unwrapped.2)
          else
            (insertBlob writeSt.blobs blob_hash
              { content := content_str, contentEncrypted := none, nonce := none,
                encryptionKeyId := none, contentType := memType, createdAt := now,
                byteSize := content_str.length }, es)
        | none =>
            (insertBlob writeSt.blobs blob_hash
              { content := content_str, contentEncrypted := none, nonce := none,
                encryptionKeyId := none, contentType := memType, createdAt := now,
                byteSize := content_str.length }, es)
      let tree_hash := compute_hash H (branch ++ ":" ++ blob_hash ++ ":" ++ now)
      let newTreeEntries := writeSt.treeEntries ++
        [{ treeHash := tree_hash, name := message.take 100,
           blobHash := blob_hash, mode := memType }]
      let branch_row := lookupA branch readSt.branches
      let parent0 := branch_row
      let parent_hash := if parent0 = some "GENESIS" then none else parent0
      let commit_data := tree_hash ++ ":" ++ pyOptStr parent_hash ++ ":" ++
        message ++ ":" ++ now
      let commit_hash := compute_hash H commit_data
      let newCommits := writeSt.commits ++
        [{ commitHash := commit_hash, treeHash := tree_hash,
           parentHash := parent_hash, author := author, message := message,
           createdAt := now }]
      let newBranches := updateHead writeSt.branches branch commit_hash
      let newTags := tags.foldl (fun acc tag => insertTag acc blob_hash tag)
        writeSt.tags
      .ok ({ branches := newBranches, commits := newCommits,
             blobs := blobInserted.1, treeEntries := newTreeEntries,
             tags := newTags }, blobInserted.2,
           { commitHash := commit_hash, blobHash := blob_hash,
             treeHash := tree_hash, branch := branch, message := message })

/-- The ordinary, single-request `create_commit`: reads and writes the
same database state. -/
def create_commit {δ : Type} (j : JsonEnv δ) (H : HashFn) (g : AESGCM)
    (cfg : EncConfig) (kms : List Nat → List Nat) (es : EncryptionService.EncState)
    (t : Nat) (now : String) (nonceR : List Nat) (st : Store)
    (branch : String) (content : Option (ReqContent δ))
    (message author memType : String) (tags : List String) :
    Except ApiError (Store × EncryptionService.EncState × CommitResp) :=
  create_commit_rw j H g cfg kms es t now nonceR st st branch content
    message author memType tags

/-- SQL `SELECT * FROM commits WHERE commit_hash = h`. -/
def findCommit (st : Store) (h : String) : Option CommitRow :=
  st.commits.find? fun c => c.commitHash == h

/-- The walk loop of `get_log`: follow `parent_hash` pointers from the
given hash, stopping after `fuel` entries (`len(commits) < limit`), at a
null parent (`while current_hash`), or at a missing commit row
(`if not commit: break`). -/
def walkLog (st : Store) : Nat → Option String → List CommitRow
  | 0, _ => []
  | _ + 1, none => []
  | fuel + 1, some h =>
      match findCommit st h with
      | none => []
      | some c => c :: walkLog st fuel c.parentHash

/-- Model of the `get_log` handler (`/v2/log` in `app.py`): an unknown
branch or a `GENESIS` head yields an empty history; otherwise the parent
chain is walked from the head for at most `limit` entries.  A broken
chain merely truncates the returned list. -/
def get_log (st : Store) (branch : String) (limit : Nat) : List CommitRow :=
  match lookupA branch st.branches with
  | none => []
  | some headCommit =>
      if headCommit = "GENESIS" then []
      else walkLog st limit (some headCommit)

theorem aesgcmDecrypt_of_tag_ne (g : AESGCM) (dek nonce ct : List Nat)
    (h : ct.drop (ct.length - 16) ≠ g.tagOf dek nonce (ct.take (ct.length - 16))) :
    aesgcmDecrypt g dek nonce ct = .error .authenticationFailure := by
  unfold aesgcmDecrypt
  by_cases hlen : ct.length < 16
  · rw [if_pos hlen]
  · rw [if_neg hlen, if_neg h]

/-- C3: For every plaintext string and every DEK, decrypting the
`(ciphertext, nonce)` pair produced by `EncryptionService.encrypt` with
the same DEK returns exactly the original plaintext (round-trip law).
The theorem quantifies over all DEKs, in particular all 32-byte ones,
and over the GCM primitive and the random nonce. -/
theorem encrypt_decrypt_roundTrip (g : AESGCM) (plaintext : String)
    (dek nonceR : List Nat) :
    EncryptionService.decrypt g
      (EncryptionService.encrypt g plaintext dek nonceR).1
      (EncryptionService.encrypt g plaintext dek nonceR).2 dek = .ok plaintext := by
  unfold EncryptionService.encrypt EncryptionService.decrypt
  simp only [aesgcmDecrypt_aesgcmEncrypt, utf8DecodeList_strBytes]

/-- C7: Whenever the GCM authentication tag carried by the ciphertext
does not verify under the supplied DEK and nonce (as happens for a
different DEK, a flipped nonce byte, or a flipped ciphertext byte),
`EncryptionService.decrypt` fails with `AuthenticationFailure` and never
returns any plaintext. -/
theorem decrypt_tag_mismatch_fails (g : AESGCM) (ciphertext nonce dek : List Nat)
    (h : ciphertext.drop (ciphertext.length - 16) ≠
      g.tagOf dek nonce (ciphertext.take (ciphertext.length - 16))) :
    EncryptionService.decrypt g ciphertext nonce dek =
      .error .authenticationFailure := by
  unfold EncryptionService.decrypt
  rw [aesgcmDecrypt_of_tag_ne g dek nonce ciphertext h]

/-- A concrete GCM primitive used only to evaluate theorems with
hypotheses at concrete inputs: constant keystream and a tag that depends
on the key. -/
def demoGCM : AESGCM where
  keystream := fun _ _ _ => 7
  tagOf := fun dek _ _ => List.replicate 15 0 ++ [dek.sum % 256]
  tag_len := by
    intro d n c
    simp

/-- Witness for C7 at a concrete ciphertext and key whose tag does not
verify. -/
theorem decrypt_tag_mismatch_fails_witness :
    (List.replicate 16 0).drop ((List.replicate 16 0).length - 16) ≠
      demoGCM.tagOf [1] [] ((List.replicate 16 0).take ((List.replicate 16 0).length - 16)) ∧
    EncryptionService.decrypt demoGCM (List.replicate 16 0) [] [1] =
      .error .authenticationFailure :=
  ⟨by decide, decrypt_tag_mismatch_fails demoGCM (List.replicate 16 0) [] [1] (by decide)⟩

theorem backup_take16 (salt rest : List Nat) (hs : salt.length = 16) :
    (salt ++ rest).take 16 = salt := by
  rw [← hs]
  exact List.take_left salt rest

theorem backup_drop16 (salt rest : List Nat) (hs : salt.length = 16) :
    (salt ++ rest).drop 16 = rest := by
  rw [← hs]
  exact List.drop_left salt rest

theorem backup_drop28 (salt nonce enc : List Nat)
    (hs : salt.length = 16) (hn : nonce.length = 12) :
    (salt ++ nonce ++ enc).drop 28 = enc := by
  have h1 : ((salt ++ nonce ++ enc).drop 16).drop 12 = (salt ++ nonce ++ enc).drop 28 := by
    rw [List.drop_drop]
  rw [← h1, List.append_assoc, backup_drop16 salt (nonce ++ enc) hs]
  rw [← hn]
  exact List.drop_left nonce enc

/-- C8: `import_dek_backup` applied to the output of `export_dek_backup`
with the same passphrase returns the original wrapped DEK byte-for-byte;
with any other passphrase whose derived key makes the GCM tag check fail
(which is what a wrong passphrase does, up to the collision resistance of
PBKDF2 and GCM, which lives outside the embedding), it fails with
`AuthenticationFailure`.  `salt` and `nonce` are the fresh 16- and
12-byte random tokens drawn inside `export_dek_backup`. -/
theorem dek_backup_roundTrip (g : AESGCM) (k : KDF)
    (wrappedDek passBytes salt nonce : List Nat)
    (hs : salt.length = 16) (hn : nonce.length = 12) :
    import_dek_backup g k (export_dek_backup g k wrappedDek passBytes salt nonce)
      passBytes = .ok wrappedDek ∧
    ∀ passBytes2 : List Nat,
      g.tagOf (k.derive passBytes2 salt) nonce
          (xorStream g (k.derive passBytes salt) nonce 0 wrappedDek) ≠
        g.tagOf (k.derive passBytes salt) nonce
          (xorStream g (k.derive passBytes salt) nonce 0 wrappedDek) →
      import_dek_backup g k (export_dek_backup g k wrappedDek passBytes salt nonce)
        passBytes2 = .error .authenticationFailure := by
  have henc : export_dek_backup g k wrappedDek passBytes salt nonce =
      salt ++ nonce ++ aesgcmEncrypt g (k.derive passBytes salt) nonce wrappedDek := rfl
  have htake : (salt ++ nonce ++ aesgcmEncrypt g (k.derive passBytes salt) nonce wrappedDek).take 16 = salt := by
    rw [List.append_assoc]
    exact backup_take16 _ _ hs
  have hdrop : (salt ++ nonce ++ aesgcmEncrypt g (k.derive passBytes salt) nonce wrappedDek).drop 16 =
      nonce ++ aesgcmEncrypt g (k.derive passBytes salt) nonce wrappedDek := by
    rw [List.append_assoc]
    exact backup_drop16 _ _ hs
  have hnonce : ((salt ++ nonce ++ aesgcmEncrypt g (k.derive passBytes salt) nonce wrappedDek).drop 16).take 12 = nonce := by
    rw [hdrop, ← hn]
    exact List.take_left nonce _
  have henc28 : (salt ++ nonce ++ aesgcmEncrypt g (k.derive passBytes salt) nonce wrappedDek).drop 28 =
      aesgcmEncrypt g (k.derive passBytes salt) nonce wrappedDek :=
    backup_drop28 _ _ _ hs hn
  constructor
  · unfold import_dek_backup
    rw [henc, htake, hnonce, henc28, aesgcmDecrypt_aesgcmEncrypt]
  · intro passBytes2 hne
    unfold import_dek_backup
    rw [henc, htake, hnonce, henc28]
    apply aesgcmDecrypt_of_tag_ne
    have hlen : (xorStream g (k.derive passBytes salt) nonce 0 wrappedDek).length =
        wrappedDek.length := xorStream_length _ _ _ _ _
    have htag : (g.tagOf (k.derive passBytes salt) nonce
        (xorStream g (k.derive passBytes salt) nonce 0 wrappedDek)).length = 16 :=
      g.tag_len _ _ _
    unfold aesgcmEncrypt
    simp only [List.length_append, hlen, htag]
    have hsub : wrappedDek.length + 16 - 16 =
        (xorStream g (k.derive passBytes salt) nonce 0 wrappedDek).length := by omega
    rw [hsub, List.take_left, List.drop_left]
    intro hcontra
    exact hne (hcontra ▸ rfl)

/-- A concrete key-derivation function used only to evaluate theorems at
concrete inputs. -/
def demoKDF : KDF where
  derive := fun passBytes salt => passBytes ++ salt

/-- Witness for C8 at concrete salt, nonce, passphrase and wrapped DEK. -/
theorem dek_backup_roundTrip_witness :
    (List.replicate 16 0).length = 16 ∧ (List.replicate 12 0).length = 12 ∧
    (import_dek_backup demoGCM demoKDF
        (export_dek_backup demoGCM demoKDF [5, 6] [1]
          (List.replicate 16 0) (List.replicate 12 0)) [1] = .ok [5, 6] ∧
      ∀ passBytes2 : List Nat,
        demoGCM.tagOf (demoKDF.derive passBytes2 (List.replicate 16 0)) (List.replicate 12 0)
            (xorStream demoGCM (demoKDF.derive [1] (List.replicate 16 0)) (List.replicate 12 0) 0 [5, 6]) ≠
          demoGCM.tagOf (demoKDF.derive [1] (List.replicate 16 0)) (List.replicate 12 0)
            (xorStream demoGCM (demoKDF.derive [1] (List.replicate 16 0)) (List.replicate 12 0) 0 [5, 6]) →
        import_dek_backup demoGCM demoKDF
          (export_dek_backup demoGCM demoKDF [5, 6] [1]
            (List.replicate 16 0) (List.replicate 12 0)) passBytes2 =
          .error .authenticationFailure) :=
  ⟨by decide, by decide,
    dek_backup_roundTrip demoGCM demoKDF [5, 6] [1]
      (List.replicate 16 0) (List.replicate 12 0) (by decide) (by decide)⟩

/-- C9: If the DEK cache holds an entry for `keyId` stamped `t0` (as left
by the call that populated it), then a call at time `t` within 300
seconds returns the cached plaintext DEK with the state — in particular
the KMS call counter — unchanged; a call at or after TTL expiry invokes
the KMS client again (counter incremented) and refreshes the cache entry
to `(kms wrappedDek, t)`. -/
theorem unwrap_dek_cache_ttl (kms : List Nat → List Nat)
    (es : EncryptionService.EncState) (t0 t : Nat) (keyId : String)
    (wrappedDek dek : List Nat)
    (hc : lookupA keyId es.cache = some (dek, t0)) :
    (t - t0 < 300 →
      EncryptionService.unwrap_dek kms es t keyId wrappedDek = (dek, es)) ∧
    (300 ≤ t - t0 →
      EncryptionService.unwrap_dek kms es t keyId wrappedDek =
        (kms wrappedDek,
          ⟨setAssoc keyId (kms wrappedDek, t) es.cache, es.kmsCalls + 1⟩) ∧
      lookupA keyId (setAssoc keyId (kms wrappedDek, t) es.cache) =
        some (kms wrappedDek, t)) := by
  constructor
  · intro hlt
    unfold EncryptionService.unwrap_dek
    rw [hc]
    simp only [EncryptionService.DEK_CACHE_TTL]
    rw [if_pos hlt]
  · intro hge
    refine ⟨?_, lookupA_setAssoc keyId _ es.cache⟩
    unfold EncryptionService.unwrap_dek
    rw [hc]
    simp only [EncryptionService.DEK_CACHE_TTL]
    rw [if_neg (by omega)]

/-- Witness for C9: a concrete cache entry stamped at 100, read at 150
(hit) and at 500 (expired). -/
theorem unwrap_dek_cache_ttl_witness :
    (lookupA "k" (⟨[("k", ([1, 2], 100))], 0⟩ : EncryptionService.EncState).cache =
      some ([1, 2], 100) ∧
    (150 - 100 < 300 →
      EncryptionService.unwrap_dek (fun _ => [9]) ⟨[("k", ([1, 2], 100))], 0⟩ 150 "k" [3] =
        ([1, 2], ⟨[("k", ([1, 2], 100))], 0⟩)) ∧
    (300 ≤ 150 - 100 →
      EncryptionService.unwrap_dek (fun _ => [9]) ⟨[("k", ([1, 2], 100))], 0⟩ 150 "k" [3] =
        ([9], ⟨setAssoc "k" ([9], 150) [("k", ([1, 2], 100))], 0 + 1⟩) ∧
      lookupA "k" (setAssoc "k" ([9], 150) [("k", ([1, 2], 100))]) = some ([9], 150))) ∧
    (500 - 100 < 300 →
      EncryptionService.unwrap_dek (fun _ => [9]) ⟨[("k", ([1, 2], 100))], 0⟩ 500 "k" [3] =
        ([1, 2], ⟨[("k", ([1, 2], 100))], 0⟩)) ∧
    (300 ≤ 500 - 100 →
      EncryptionService.unwrap_dek (fun _ => [9]) ⟨[("k", ([1, 2], 100))], 0⟩ 500 "k" [3] =
        ([9], ⟨setAssoc "k" ([9], 500) [("k", ([1, 2], 100))], 0 + 1⟩) ∧
      lookupA "k" (setAssoc "k" ([9], 500) [("k", ([1, 2], 100))]) = some ([9], 500)) :=
  ⟨⟨by decide,
    (unwrap_dek_cache_ttl (fun _ => [9]) ⟨[("k", ([1, 2], 100))], 0⟩ 100 150 "k" [3] [1, 2]
      (by decide)).1,
    (unwrap_dek_cache_ttl (fun _ => [9]) ⟨[("k", ([1, 2], 100))], 0⟩ 100 150 "k" [3] [1, 2]
      (by decide)).2⟩,
   (unwrap_dek_cache_ttl (fun _ => [9]) ⟨[("k", ([1, 2], 100))], 0⟩ 100 500 "k" [3] [1, 2]
      (by decide)).1,
   (unwrap_dek_cache_ttl (fun _ => [9]) ⟨[("k", ([1, 2], 100))], 0⟩ 100 500 "k" [3] [1, 2]
      (by decide)).2⟩

theorem lookupA_updateHead (branches : List (String × String)) (name v : String)
    (h : (lookupA name branches).isSome) :
    lookupA name (updateHead branches name v) = some v := by
  induction branches with
  | nil => simp [lookupA] at h
  | cons p rest ih =>
      obtain ⟨k2, v2⟩ := p
      by_cases hp : k2 = name
      · subst hp
        simp [updateHead, lookupA]
      · simp only [lookupA, if_neg hp] at h
        simp only [updateHead, if_neg hp, lookupA]
        exact ih h

theorem lookupA_append_of_none {α : Type} (k : String) (v : α)
    (l : List (String × α)) (h : lookupA k l = none) :
    lookupA k (l ++ [(k, v)]) = some v := by
  induction l with
  | nil => simp [lookupA]
  | cons p rest ih =>
      obtain ⟨k2, v2⟩ := p
      by_cases hp : k2 = k
      · simp [lookupA, hp] at h
      · simp only [lookupA, if_neg hp] at h
        simp only [List.cons_append, lookupA, if_neg hp]
        exact ih h

/-- C1: For every accepted content value, the returned `blob_hash` is the
SHA-256 hex digest of the canonicalized content string (`json.dumps` for
a dict, `str` otherwise), and it is the same no matter what the
encryption configuration, GCM primitive, DEK cache, KMS, nonce, clock,
database state, branch, message, author, type or tags are — in
particular it is identical with encryption enabled and disabled. -/
theorem commit_blobHash_pure {δ : Type} (j : JsonEnv δ) (H : HashFn)
    (g1 g2 : AESGCM) (cfg1 cfg2 : EncConfig) (kms1 kms2 : List Nat → List Nat)
    (es1 es2 : EncryptionService.EncState) (t1 t2 : Nat) (now1 now2 : String)
    (n1 n2 : List Nat) (st1 st2 : Store) (b1 b2 : String) (c : ReqContent δ)
    (m1 m2 a1 a2 ty1 ty2 : String) (tg1 tg2 : List String)
    (hf : contentFalsy j c = false) :
    ∃ r1 r2,
      create_commit j H g1 cfg1 kms1 es1 t1 now1 n1 st1 b1 (some c) m1 a1 ty1 tg1 =
        .ok r1 ∧
      create_commit j H g2 cfg2 kms2 es2 t2 now2 n2 st2 b2 (some c) m2 a2 ty2 tg2 =
        .ok r2 ∧
      r1.2.2.blobHash = compute_hash H (canonicalContent j c) ∧
      r2.2.2.blobHash = r1.2.2.blobHash := by
  unfold create_commit create_commit_rw
  simp only [hf, Bool.false_eq_true, if_false]
  exact ⟨_, _, rfl, rfl, rfl, rfl⟩

/-- A trivial JSON abstraction over `Unit` dicts, used only to evaluate
theorems at concrete inputs. -/
def demoJson : JsonEnv Unit where
  dumps := fun _ => "null"
  isEmptyDict := fun _ => true

/-- A concrete stand-in for the SHA-256 hex digest, injective on the
inputs the concrete evaluations use. -/
def demoHash : HashFn where
  sha := fun s => String.append "sha:" s

/-- A store holding one empty branch `b1`, used only to evaluate theorems
at concrete inputs. -/
def demoStore : Store where
  branches := [("b1", "GENESIS")]
  commits := []
  blobs := []
  treeEntries := []
  tags := []

/-- Witness for C1: the same content committed under an
encryption-disabled and an encryption-enabled configuration yields the
same `blob_hash`. -/
theorem commit_blobHash_pure_witness :
    contentFalsy demoJson (ReqContent.other "hello") = false ∧
    ∃ r1 r2,
      create_commit demoJson demoHash demoGCM ⟨false, false, none⟩ (fun _ => [])
        ⟨[], 0⟩ 0 "T1" [] demoStore "b1" (some (ReqContent.other "hello"))
        "m1" "claude" "memory" [] = .ok r1 ∧
      create_commit demoJson demoHash demoGCM ⟨true, true, some ("k", [1])⟩ (fun _ => [2])
        ⟨[], 0⟩ 0 "T2" (List.replicate 12 0) demoStore "b1"
        (some (ReqContent.other "hello")) "m2" "claude" "memory" [] = .ok r2 ∧
      r1.2.2.blobHash = compute_hash demoHash (canonicalContent demoJson (ReqContent.other "hello")) ∧
      r2.2.2.blobHash = r1.2.2.blobHash :=
  ⟨by decide,
    commit_blobHash_pure demoJson demoHash demoGCM demoGCM ⟨false, false, none⟩
      ⟨true, true, some ("k", [1])⟩ (fun _ => []) (fun _ => [2]) ⟨[], 0⟩ ⟨[], 0⟩ 0 0
      "T1" "T2" [] (List.replicate 12 0) demoStore demoStore "b1" "b1"
      (ReqContent.other "hello") "m1" "m2" "claude" "claude" "memory" "memory" [] []
      (by decide)⟩

/-- C2: For every successful commit on an existing branch, the inserted
commit row's `parent_hash` is the branch head read at the start of the
call with the `GENESIS` sentinel translated to null; the returned
`commit_hash` is the SHA-256 of the string joining `tree_hash`,
`parent_hash`, `message` and the timestamp; and afterwards the branch
head equals the returned `commit_hash`. -/
theorem commit_parent_chain_head {δ : Type} (j : JsonEnv δ) (H : HashFn)
    (g : AESGCM) (cfg : EncConfig) (kms : List Nat → List Nat)
    (es : EncryptionService.EncState) (t : Nat) (now : String) (nonceR : List Nat)
    (st : Store) (branch : String) (c : ReqContent δ)
    (message author memType : String) (tags : List String) (h0 : String)
    (hf : contentFalsy j c = false)
    (hb : lookupA branch st.branches = some h0) :
    ∃ st' es' resp row,
      create_commit j H g cfg kms es t now nonceR st branch (some c)
        message author memType tags = .ok (st', es', resp) ∧
      row.parentHash = (if h0 = "GENESIS" then none else some h0) ∧
      st'.commits = st.commits ++ [row] ∧
      row.commitHash = resp.commitHash ∧
      resp.commitHash = compute_hash H
        (resp.treeHash ++ ":" ++ pyOptStr row.parentHash ++ ":" ++ message ++ ":" ++ now) ∧
      lookupA branch st'.branches = some resp.commitHash := by
  unfold create_commit create_commit_rw
  simp only [hf, Bool.false_eq_true, if_false, hb]
  refine ⟨_, _, _, _, rfl, ?_, rfl, rfl, ?_, ?_⟩
  · simp
  · simp
  · apply lookupA_updateHead
    rw [hb]
    rfl

/-- Witness for C2 on the concrete store with empty branch `b1`. -/
theorem commit_parent_chain_head_witness :
    contentFalsy demoJson (ReqContent.other "hello") = false ∧
    lookupA "b1" demoStore.branches = some "GENESIS" ∧
    ∃ st' es' resp row,
      create_commit demoJson demoHash demoGCM ⟨false, false, none⟩ (fun _ => [])
        ⟨[], 0⟩ 0 "T1" [] demoStore "b1" (some (ReqContent.other "hello"))
        "m1" "claude" "memory" [] = .ok (st', es', resp) ∧
      row.parentHash = (if "GENESIS" = "GENESIS" then none else some "GENESIS") ∧
      st'.commits = demoStore.commits ++ [row] ∧
      row.commitHash = resp.commitHash ∧
      resp.commitHash = compute_hash demoHash
        (resp.treeHash ++ ":" ++ pyOptStr row.parentHash ++ ":" ++ "m1" ++ ":" ++ "T1") ∧
      lookupA "b1" st'.branches = some resp.commitHash :=
  ⟨by decide, by decide,
    commit_parent_chain_head demoJson demoHash demoGCM ⟨false, false, none⟩
      (fun _ => []) ⟨[], 0⟩ 0 "T1" [] demoStore "b1" (ReqContent.other "hello")
      "m1" "claude" "memory" [] "GENESIS" (by decide) (by decide)⟩

/-- C5: When encryption is enabled, the service is available and an
active DEK exists, the blob row written by a commit of fresh content
carries the full plaintext content string in its `content` column in
addition to the ciphertext, the nonce and the encryption key id — the
plaintext is persisted alongside the encrypted form (this is what the
`INSERT INTO blobs` at lines 299-304 of `app.py` does). -/
theorem commit_encrypted_stores_plaintext {δ : Type} (j : JsonEnv δ) (H : HashFn)
    (g : AESGCM) (kms : List Nat → List Nat) (es : EncryptionService.EncState)
    (t : Nat) (now : String) (nonceR : List Nat) (st : Store) (branch : String)
    (c : ReqContent δ) (message author memType : String) (tags : List String)
    (keyId : String) (wrappedDek : List Nat)
    (hf : contentFalsy j c = false)
    (hnew : lookupA (compute_hash H (canonicalContent j c)) st.blobs = none) :
    ∃ st' es' resp,
      create_commit j H g ⟨true, true, some (keyId, wrappedDek)⟩ kms es t now
        nonceR st branch (some c) message author memType tags =
        .ok (st', es', resp) ∧
      lookupA resp.blobHash st'.blobs = some
        { content := canonicalContent j c,
          contentEncrypted := some (aesgcmEncrypt g
            (EncryptionService.unwrap_dek kms es t keyId wrappedDek).1 nonceR
            (strBytes (canonicalContent j c))),
          nonce := some nonceR,
          encryptionKeyId := some keyId,
          contentType := memType,
          createdAt := now,
          byteSize := (canonicalContent j c).length } := by
  unfold create_commit create_commit_rw
  simp only [hf, Bool.false_eq_true, if_false, Bool.and_self, if_pos rfl]
  simp only [compute_hash] at hnew
  refine ⟨_, _, _, rfl, ?_⟩
  simp only [if_true, insertBlob, EncryptionService.encrypt, compute_hash, hnew,
    Option.isSome_none, Bool.false_eq_true, if_false]
  exact lookupA_append_of_none _ _ _ hnew

/-- Witness for C5: committing fresh content with encryption active
writes a blob row holding both the plaintext and the ciphertext. -/
theorem commit_encrypted_stores_plaintext_witness :
    contentFalsy demoJson (ReqContent.other "hi") = false ∧
    lookupA (compute_hash demoHash (canonicalContent demoJson (ReqContent.other "hi")))
      demoStore.blobs = none ∧
    ∃ st' es' resp,
      create_commit demoJson demoHash demoGCM ⟨true, true, some ("k1", [7])⟩
        (fun _ => [3]) ⟨[], 0⟩ 0 "T1" (List.replicate 12 0) demoStore "b1"
        (some (ReqContent.other "hi")) "m1" "claude" "memory" [] =
        .ok (st', es', resp) ∧
      lookupA resp.blobHash st'.blobs = some
        { content := canonicalContent demoJson (ReqContent.other "hi"),
          contentEncrypted := some (aesgcmEncrypt demoGCM
            (EncryptionService.unwrap_dek (fun _ => [3]) ⟨[], 0⟩ 0 "k1" [7]).1
            (List.replicate 12 0)
            (strBytes (canonicalContent demoJson (ReqContent.other "hi")))),
          nonce := some (List.replicate 12 0),
          encryptionKeyId := some "k1",
          contentType := "memory",
          createdAt := "T1",
          byteSize := (canonicalContent demoJson (ReqContent.other "hi")).length } :=
  ⟨by decide, by decide,
    commit_encrypted_stores_plaintext demoJson demoHash demoGCM (fun _ => [3])
      ⟨[], 0⟩ 0 "T1" (List.replicate 12 0) demoStore "b1" (ReqContent.other "hi")
      "m1" "claude" "memory" [] "k1" [7] (by decide) (by decide)⟩

/-- C4 (refuting evidence): with `ENCRYPTION_ENABLED = true` but the
encryption service unavailable (its initializer swallows failures and
returns `None`) or no active DEK, a commit does not fail — it succeeds
and silently stores the payload in plaintext, with no encryption fields
set.  This contradicts the requirement that the storage write abort
rather than fall back to plaintext when encryption was requested. -/
theorem commit_plaintext_fallback {δ : Type} (j : JsonEnv δ) (H : HashFn)
    (g : AESGCM) (cfg : EncConfig) (kms : List Nat → List Nat)
    (es : EncryptionService.EncState) (t : Nat) (now : String) (nonceR : List Nat)
    (st : Store) (branch : String) (c : ReqContent δ)
    (message author memType : String) (tags : List String)
    (hf : contentFalsy j c = false)
    (henc : cfg.encryptionEnabled = true)
    (hfail : cfg.serviceAvailable = false ∨ cfg.activeDek = none)
    (hnew : lookupA (compute_hash H (canonicalContent j c)) st.blobs = none) :
    ∃ st' es' resp,
      create_commit j H g cfg kms es t now nonceR st branch (some c)
        message author memType tags = .ok (st', es', resp) ∧
      lookupA resp.blobHash st'.blobs = some
        { content := canonicalContent j c,
          contentEncrypted := none,
          nonce := none,
          encryptionKeyId := none,
          contentType := memType,
          createdAt := now,
          byteSize := (canonicalContent j c).length } := by
  unfold create_commit create_commit_rw
  simp only [hf, Bool.false_eq_true, if_false, henc, if_pos rfl]
  simp only [compute_hash] at hnew
  rcases hfail with hsvc | hdek
  · rcases hdo : cfg.activeDek with _ | ⟨kid, wd⟩
    · simp only [hdo, if_true]
      refine ⟨_, _, _, rfl, ?_⟩
      simp only [insertBlob, compute_hash, hnew, Option.isSome_none,
        Bool.false_eq_true, if_false]
      exact lookupA_append_of_none _ _ _ hnew
    · simp only [hdo, if_true, hsvc, Bool.and_false, Bool.true_and,
        Bool.false_eq_true, if_false]
      refine ⟨_, _, _, rfl, ?_⟩
      simp only [insertBlob, compute_hash, hnew, Option.isSome_none,
        Bool.false_eq_true, if_false]
      exact lookupA_append_of_none _ _ _ hnew
  · simp only [hdek, if_true]
    refine ⟨_, _, _, rfl, ?_⟩
    simp only [insertBlob, compute_hash, hnew, Option.isSome_none,
      Bool.false_eq_true, if_false]
    exact lookupA_append_of_none _ _ _ hnew

/-- Witness for C4's refuting evidence: encryption enabled, service
initialization failed, active DEK present — the commit succeeds and the
stored blob is plaintext with no encryption fields. -/
theorem commit_plaintext_fallback_witness :
    contentFalsy demoJson (ReqContent.other "secret") = false ∧
    (⟨true, false, some ("k1", [7])⟩ : EncConfig).encryptionEnabled = true ∧
    ((⟨true, false, some ("k1", [7])⟩ : EncConfig).serviceAvailable = false ∨
      (⟨true, false, some ("k1", [7])⟩ : EncConfig).activeDek = none) ∧
    lookupA (compute_hash demoHash (canonicalContent demoJson (ReqContent.other "secret")))
      demoStore.blobs = none ∧
    ∃ st' es' resp,
      create_commit demoJson demoHash demoGCM ⟨true, false, some ("k1", [7])⟩
        (fun _ => [3]) ⟨[], 0⟩ 0 "T1" [] demoStore "b1"
        (some (ReqContent.other "secret")) "m1" "claude" "memory" [] =
        .ok (st', es', resp) ∧
      lookupA resp.blobHash st'.blobs = some
        { content := canonicalContent demoJson (ReqContent.other "secret"),
          contentEncrypted := none,
          nonce := none,
          encryptionKeyId := none,
          contentType := "memory",
          createdAt := "T1",
          byteSize := (canonicalContent demoJson (ReqContent.other "secret")).length } :=
  ⟨by decide, by decide, Or.inl (by decide), by decide,
    commit_plaintext_fallback demoJson demoHash demoGCM ⟨true, false, some ("k1", [7])⟩
      (fun _ => [3]) ⟨[], 0⟩ 0 "T1" [] demoStore "b1" (ReqContent.other "secret")
      "m1" "claude" "memory" [] (by decide) (by decide) (Or.inl (by decide)) (by decide)⟩

/-- A list of commit rows is parent-linked when each entry's
`parent_hash` points at the next entry's `commit_hash` — i.e. the list
is newest-first along the parent chain. -/
def chainLinked : List CommitRow → Bool
  | [] => true
  | [_] => true
  | a :: b :: rest => (a.parentHash == some b.commitHash) && chainLinked (b :: rest)

theorem walkLog_length_le (st : Store) :
    ∀ (fuel : Nat) (oh : Option String), (walkLog st fuel oh).length ≤ fuel := by
  intro fuel
  induction fuel with
  | zero => intro oh; simp [walkLog]
  | succ n ih =>
      intro oh
      match oh with
      | none => simp [walkLog]
      | some h =>
          simp only [walkLog]
          cases hf : findCommit st h with
          | none => simp
          | some c =>
              simp only [List.length_cons]
              exact Nat.succ_le_succ (ih c.parentHash)

theorem walkLog_cons_hash (st : Store) :
    ∀ (fuel : Nat) (oh : Option String) (c : CommitRow) (rest : List CommitRow),
      walkLog st fuel oh = c :: rest → oh = some c.commitHash := by
  intro fuel oh c rest hw
  match fuel, oh with
  | 0, oh => simp [walkLog] at hw
  | n + 1, none => simp [walkLog] at hw
  | n + 1, some h =>
      simp only [walkLog] at hw
      cases hf : findCommit st h with
      | none => rw [hf] at hw; simp at hw
      | some c0 =>
          rw [hf] at hw
          injection hw with h1 h2
          have hp := List.find?_some hf
          have hh : c0.commitHash = h := by simpa using hp
          rw [← h1, hh]

theorem chainLinked_walkLog (st : Store) :
    ∀ (fuel : Nat) (oh : Option String), chainLinked (walkLog st fuel oh) = true := by
  intro fuel
  induction fuel with
  | zero => intro oh; simp [walkLog, chainLinked]
  | succ n ih =>
      intro oh
      match oh with
      | none => simp [walkLog, chainLinked]
      | some h =>
          simp only [walkLog]
          cases hf : findCommit st h with
          | none => simp [chainLinked]
          | some c =>
              cases hw : walkLog st n c.parentHash with
              | nil =>
                  show chainLinked (c :: walkLog st n c.parentHash) = true
                  rw [hw]; simp [chainLinked]
              | cons c2 rest =>
                  show chainLinked (c :: walkLog st n c.parentHash) = true
                  rw [hw]
                  have hlink : c.parentHash = some c2.commitHash :=
                    walkLog_cons_hash st n c.parentHash c2 rest hw
                  have hch : chainLinked (c2 :: rest) = true := hw ▸ ih c.parentHash
                  simp [chainLinked, hlink, hch]

/-- The stopping condition of the `get_log` walk loop, as a predicate on
the hash the walk would fetch next: the walk may stop there only when the
chain has ended at a null parent (`while current_hash` — the commit whose
parent the `GENESIS` sentinel became) or when that next commit row is
missing from the commits table (`if not commit: break` — a broken
chain). -/
def stopsHere (st : Store) : Option String → Bool
  | none => true
  | some h2 => (findCommit st h2).isNone

/-- The hash the walk would visit next after having returned the given
prefix: the starting hash for an empty prefix, otherwise the parent
pointer of the last returned commit. -/
def afterWalk : Option String → List CommitRow → Option String
  | oh, [] => oh
  | _, c :: rest => afterWalk c.parentHash rest

theorem walkLog_truncates (st : Store) :
    ∀ (fuel : Nat) (oh : Option String),
      (walkLog st fuel oh).length < fuel →
      stopsHere st (afterWalk oh (walkLog st fuel oh)) = true := by
  intro fuel
  induction fuel with
  | zero => intro oh hlt; omega
  | succ n ih =>
      intro oh hlt
      match oh with
      | none => simp [walkLog, afterWalk, stopsHere]
      | some h =>
          simp only [walkLog] at hlt ⊢
          revert hlt
          cases hf : findCommit st h with
          | none =>
              intro hlt
              simp [afterWalk, stopsHere, hf]
          | some c =>
              intro hlt
              simp only [List.length_cons] at hlt
              simp only [afterWalk]
              exact ih c.parentHash (by omega)

theorem walkLog_mem_found (st : Store) :
    ∀ (fuel : Nat) (oh : Option String) (c : CommitRow),
      c ∈ walkLog st fuel oh → findCommit st c.commitHash = some c := by
  intro fuel
  induction fuel with
  | zero => intro oh c hc; simp [walkLog] at hc
  | succ n ih =>
      intro oh c hc
      match oh with
      | none => simp [walkLog] at hc
      | some h =>
          simp only [walkLog] at hc
          revert hc
          cases hf : findCommit st h with
          | none => intro hc; simp at hc
          | some c0 =>
              intro hc
              rcases List.mem_cons.mp hc with hceq | hmem
              · subst hceq
                have hp := List.find?_some hf
                have hh : c.commitHash = h := by simpa using hp
                rw [hh]
                exact hf
              · exact ih c0.parentHash c hmem

/-- C6: `get_log` returns at most `limit` commits; the result is ordered
newest-first along the parent chain (each entry parent-points at the
next entry); its first entry, when present, is exactly the branch head;
a `GENESIS` head yields an empty history; every returned entry is a
commit row actually found in the store; whenever fewer than `limit`
entries come back on an existing non-`GENESIS` branch, the walk stopped
exactly where the chain ends (null parent) or where the next commit row
is missing — a broken chain truncates to the partial history found so
far instead of failing; and the walk is a pure function of the store, so
repeated calls with no intervening commits return identical output. -/
theorem get_log_spec (st : Store) (branch : String) (limit : Nat) :
    (get_log st branch limit).length ≤ limit ∧
    chainLinked (get_log st branch limit) = true ∧
    (∀ c rest, get_log st branch limit = c :: rest →
      lookupA branch st.branches = some c.commitHash) ∧
    (lookupA branch st.branches = some "GENESIS" → get_log st branch limit = []) ∧
    (∀ c, c ∈ get_log st branch limit → findCommit st c.commitHash = some c) ∧
    (∀ headC, lookupA branch st.branches = some headC → headC ≠ "GENESIS" →
      (get_log st branch limit).length < limit →
      stopsHere st (afterWalk (some headC) (get_log st branch limit)) = true) ∧
    get_log st branch limit = get_log st branch limit := by
  refine ⟨?_, ?_, ?_, ?_, ?_, ?_, rfl⟩
  · unfold get_log
    cases hb : lookupA branch st.branches with
    | none => simp
    | some headCommit =>
        by_cases hg : headCommit = "GENESIS"
        · simp [hg]
        · simp only [if_neg hg]
          exact walkLog_length_le st limit (some headCommit)
  · unfold get_log
    cases hb : lookupA branch st.branches with
    | none => simp [chainLinked]
    | some headCommit =>
        by_cases hg : headCommit = "GENESIS"
        · simp [hg, chainLinked]
        · simp only [if_neg hg]
          exact chainLinked_walkLog st limit (some headCommit)
  · intro c rest hc
    unfold get_log at hc
    cases hb : lookupA branch st.branches with
    | none => rw [hb] at hc; simp at hc
    | some headCommit =>
        rw [hb] at hc
        have hc2 : (if headCommit = "GENESIS" then ([] : List CommitRow)
            else walkLog st limit (some headCommit)) = c :: rest := hc
        by_cases hg : headCommit = "GENESIS"
        · rw [if_pos hg] at hc2
          simp at hc2
        · rw [if_neg hg] at hc2
          exact walkLog_cons_hash st limit (some headCommit) c rest hc2
  · intro hb
    unfold get_log
    rw [hb]
    exact if_pos rfl
  · intro c hc
    unfold get_log at hc
    cases hb : lookupA branch st.branches with
    | none => rw [hb] at hc; simp at hc
    | some headCommit =>
        rw [hb] at hc
        have hc2 : c ∈ (if headCommit = "GENESIS" then ([] : List CommitRow)
            else walkLog st limit (some headCommit)) := hc
        by_cases hg : headCommit = "GENESIS"
        · rw [if_pos hg] at hc2
          simp at hc2
        · rw [if_neg hg] at hc2
          exact walkLog_mem_found st limit (some headCommit) c hc2
  · intro headC hb hg hlen
    have hval : get_log st branch limit = walkLog st limit (some headC) := by
      unfold get_log
      rw [hb]
      exact if_neg hg
    rw [hval] at hlen ⊢
    exact walkLog_truncates st limit (some headC) hlen

/-- A store whose branch `b1` points at a commit whose parent commit row
is missing — a broken chain — used only to evaluate `get_log_spec` at a
concrete input where the walk truncates. -/
def brokenChainStore : Store where
  branches := [("b1", "c3h")]
  commits := [
    { commitHash := "c3h", treeHash := "t3", parentHash := some "c2h",
      author := "a", message := "m3", createdAt := "T3" }]
  blobs := []
  treeEntries := []
  tags := []

/-- Witness for C6 on a store with a broken chain: the head commit
exists, its parent row `c2h` is missing, and `get_log` returns the
partial history found so far — exactly the head commit — rather than
failing or returning nothing; the instantiated `get_log_spec`
conclusion holds there. -/
theorem get_log_spec_witness :
    get_log brokenChainStore "b1" 10 =
      [{ commitHash := "c3h", treeHash := "t3", parentHash := some "c2h",
         author := "a", message := "m3", createdAt := "T3" }] ∧
    findCommit brokenChainStore "c2h" = none ∧
    ((get_log brokenChainStore "b1" 10).length ≤ 10 ∧
      chainLinked (get_log brokenChainStore "b1" 10) = true ∧
      (∀ c rest, get_log brokenChainStore "b1" 10 = c :: rest →
        lookupA "b1" brokenChainStore.branches = some c.commitHash) ∧
      (lookupA "b1" brokenChainStore.branches = some "GENESIS" →
        get_log brokenChainStore "b1" 10 = []) ∧
      (∀ c, c ∈ get_log brokenChainStore "b1" 10 →
        findCommit brokenChainStore c.commitHash = some c) ∧
      (∀ headC, lookupA "b1" brokenChainStore.branches = some headC →
        headC ≠ "GENESIS" →
        (get_log brokenChainStore "b1" 10).length < 10 →
        stopsHere brokenChainStore
          (afterWalk (some headC) (get_log brokenChainStore "b1" 10)) = true) ∧
      get_log brokenChainStore "b1" 10 = get_log brokenChainStore "b1" 10) :=
  ⟨by decide, by decide, get_log_spec brokenChainStore "b1" 10⟩

/-- First concurrent committer A: reads the branch head from the initial
store and writes on the initial store (it commits first). -/
def raceStep1 : Except ApiError (Store × EncryptionService.EncState × CommitResp) :=
  create_commit_rw demoJson demoHash demoGCM ⟨false, false, none⟩ (fun _ => [])
    ⟨[], 0⟩ 0 "T1" [] demoStore demoStore "b1" (some (ReqContent.other "c1"))
    "m1" "claude" "memory" []

/-- The store committed by A. -/
def raceS1 : Store :=
  match raceStep1 with
  | .ok (s, _, _) => s
  | .error _ => demoStore

/-- A's response. -/
def raceR1 : CommitResp :=
  match raceStep1 with
  | .ok (_, _, r) => r
  | .error _ => ⟨"", "", "", "", ""⟩

/-- Second concurrent committer B: its `SELECT head_commit` ran before A
committed (so it reads the head from the initial store), but its write
set lands on the state A committed — the unprotected read-modify-write
window of `create_commit`. -/
def raceStep2 : Except ApiError (Store × EncryptionService.EncState × CommitResp) :=
  create_commit_rw demoJson demoHash demoGCM ⟨false, false, none⟩ (fun _ => [])
    ⟨[], 0⟩ 0 "T2" [] demoStore raceS1 "b1" (some (ReqContent.other "c2"))
    "m2" "claude" "memory" []

/-- The store committed by B. -/
def raceS2 : Store :=
  match raceStep2 with
  | .ok (s, _, _) => s
  | .error _ => demoStore

/-- B's response. -/
def raceR2 : CommitResp :=
  match raceStep2 with
  | .ok (_, _, r) => r
  | .error _ => ⟨"", "", "", "", ""⟩

/-- C10 (refuting evidence): in the interleaving where both commit
requests read the branch head before either head update commits — which
nothing in `create_commit` prevents, since the head read and the head
update take no row lock and no compare-and-swap — both calls succeed,
both created commits carry the same `parent_hash` (null), the final head
is B's commit only, and A's commit, although present in the commits
table, is absent from the history `get_log` can reach from the head: a
silently lost update. -/
theorem concurrent_commit_lost_update :
    raceStep1.isOk = true ∧
    raceStep2.isOk = true ∧
    (raceS2.commits.map fun c => c.parentHash) = [none, none] ∧
    raceR1.commitHash ≠ raceR2.commitHash ∧
    lookupA "b1" raceS2.branches = some raceR2.commitHash ∧
    raceR1.commitHash ∈ raceS2.commits.map (fun c => c.commitHash) ∧
    raceR1.commitHash ∉ (get_log raceS2 "b1" 10).map (fun c => c.commitHash) := by
  decide

end Boswell
